import Mathlib

/-!
Verification development for the `privacy-evaluator` repository.

The development shallowly embeds the two analysed source files:

* `src/privacy_evaluator/attacks/property_inference_attack/property_inference_class_distribution_attack.py`
  (the class `PropertyInferenceClassDistributionAttack`), and
* `src/privacy_evaluator/attacks/membership_inference/membership_inference_analysis.py`
  (the class `MembershipInferenceAttackAnalysis` and the module-level `slices` generator).

Modelling conventions:

* Python floats are embedded as exact rationals `ℚ`; Python ints as `ℤ`.
* Fallible Python code returns `Except PyError _`; `PyError` distinguishes the
  exception classes the claims talk about (`ValueError`, `IndexError`).
* Calls into code that is outside the analysed sources and whose results the
  claims never inspect (shadow-classifier training, meta-classifier training,
  feature extraction, dataset sub-sampling) are uninterpreted oracle functions,
  collected in the `Oracles` structure and passed explicitly.
* Logging side effects that the claims mention (clamping warnings, the
  low-confidence warning) are returned as explicit values.
* Python's in-place `list.sort()` is embedded extensionally as a stable
  ascending sort (`List.insertionSort (· ≤ ·)`); for the aliasing claim a
  small reference-store model of Python list objects is used.
-/

namespace PrivacyEvaluator

/-- Exception classes distinguished by the embedding: Python `ValueError`
(also raised by `max()` on an empty sequence) and `IndexError`. -/
inductive PyError where
  | valueError (msg : String) : PyError
  | indexError : PyError
deriving DecidableEq

/-- Python `int(q)` on a float: truncation toward zero. -/
def pyInt (q : ℚ) : ℤ :=
  if 0 ≤ q then ⌊q⌋ else ⌈q⌉

/-- Python `round(q)` (no digits argument): round half to even. -/
def roundHalfEven (q : ℚ) : ℤ :=
  if q - ⌊q⌋ < 1/2 then ⌊q⌋
  else if 1/2 < q - ⌊q⌋ then ⌊q⌋ + 1
  else if ⌊q⌋ % 2 = 0 then ⌊q⌋ else ⌊q⌋ + 1

/-- Python `round(q, 5)`: round half to even at the fifth decimal place. -/
def pyRound5 (q : ℚ) : ℚ :=
  (roundHalfEven (q * 100000) : ℚ) / 100000

/-- Module constant `AMOUNT_SETS` of the source file. -/
def AMOUNT_SETS : ℤ := 2

/-- Module constant `SIZE_SHADOW_TRAINING_SET` of the source file. -/
def SIZE_SHADOW_TRAINING_SET : ℤ := 1000

/-- Module constant `RATIOS_FOR_ATTACK` of the source file. -/
def RATIOS_FOR_ATTACK : List ℚ :=
  [0.05, 0.1, 0.15, 0.2, 0.25, 0.3, 0.35, 0.4, 0.45,
   0.55, 0.6, 0.65, 0.7, 0.75, 0.8, 0.85, 0.9, 0.95]

/-- Module constant `CLASSES` of the source file. -/
def CLASSES : List ℤ := [0, 1]

/-- Module constant `NEGATIVE_RATIO` of the source file (value 0.5). -/
def negativeRatioDefault : ℚ := 0.5

/-- The dataset as the attack sees it: the label array `dataset[1]`.
The feature array `dataset[0]` is never inspected by the embedded code paths,
so only the labels are carried. -/
def Labels := List ℤ

/-- Count of samples of class `i`: `len(np.where(dataset[1] == i)[0])`. -/
def countClass (labels : List ℤ) (i : ℤ) : ℤ :=
  ((labels.filter (fun l => l = i)).length : ℤ)

/-- One clamping warning as logged by the constructor loop: class, its sample
count, the size before clamping and the size after clamping. -/
structure ClampWarning where
  cls : ℤ
  length_class : ℤ
  old_size : ℤ
  new_size : ℤ
deriving DecidableEq

/-- State of a constructed `PropertyInferenceClassDistributionAttack`: the
fields the analysed methods read. -/
structure AttackSelf where
  target_model : ℚ
  amount_sets : ℤ
  size_shadow_training_set : ℤ
  ratios_for_attack : List ℚ
  negative_ratio : ℚ
  classes : List ℤ
deriving DecidableEq

/-- The size-clamping loop of `PropertyInferenceClassDistributionAttack.__init__`
(source lines 86-101): for each class in order, if the class has fewer samples
than the current size, the size is lowered to that count and a warning is
logged. Returns the final size and the warnings in logging order. -/
def clampLoop (labels : List ℤ) : List ℤ → ℤ → ℤ × List ClampWarning
  | [], size => (size, [])
  | i :: rest, size =>
    let length_class := countClass labels i
    if length_class < size then
      let r := clampLoop labels rest length_class
      (r.1, ⟨i, length_class, size, length_class⟩ :: r.2)
    else
      clampLoop labels rest size

/-- Modelled from the spec: the base-class constructor
`PropertyInferenceAttack.__init__` is not among the analysed sources; per the
spec it validates that `amount_sets` is even and at least 2, raising a
configuration error otherwise, and stores the (possibly clamped) configuration
on the instance. -/
def superInitPropertyInferenceAttack (target_model : ℚ)
    (amount_sets size_shadow_training_set : ℤ) (ratios_for_attack : List ℚ)
    (negative_ratio : ℚ) (classes : List ℤ) : Except PyError AttackSelf :=
  if amount_sets % 2 ≠ 0 ∨ amount_sets < 2 then
    .error (.valueError "amount_sets must be an even number of at least 2")
  else
    .ok ⟨target_model, amount_sets, size_shadow_training_set, ratios_for_attack,
         negative_ratio, classes⟩

/-- Constructor `PropertyInferenceClassDistributionAttack.__init__` (source lines 52-111):
validates the class list, clamps the shadow-training-set size to the smallest
class's sample count (warning instead of raising), and delegates to the base
constructor. Returns the constructed state and the clamping warnings logged. -/
def initAttack (target_model : ℚ) (labels : List ℤ)
    (amount_sets size_shadow_training_set : ℤ) (ratios_for_attack : List ℚ)
    (negative_ratio : ℚ) (classes : List ℤ) :
    Except PyError (AttackSelf × List ClampWarning) :=
  if classes.length ≠ 2 then
    .error (.valueError "Currently attack only works with two classes.")
  else if classes.any (fun c => decide (c ∉ labels)) then
    .error (.valueError "Class does not exist in dataset.")
  else
    let clamped := clampLoop labels classes size_shadow_training_set
    match superInitPropertyInferenceAttack target_model amount_sets clamped.1
        ratios_for_attack negative_ratio classes with
    | .error e => .error e
    | .ok self => .ok (self, clamped.2)

/-- Uninterpreted collaborators: base-class methods and utility functions that
are outside the analysed sources and whose outputs the claims never inspect.
Each field stands for one such function; values flow through them unchanged. -/
structure Oracles where
  feature_extraction : ℚ → ℚ
  new_dataset_from_size_dict : ℤ × ℤ → ℚ
  train_shadow_classifiers : List ℚ → ℤ × ℤ → List ℚ
  create_meta_training_set : List ℚ → List ℚ → ℚ × ℚ
  train_meta_classifier : ℚ × ℚ → ℚ
  perform_prediction : ℚ → ℚ → ℚ

/-- Method `create_shadow_training_sets` (source lines 113-137): builds
`int(amount_sets / 2)` shadow training sets from the same size dictionary. -/
def create_shadow_training_sets (O : Oracles) (self : AttackSelf)
    (num_elements_per_class : ℤ × ℤ) : List ℚ :=
  (List.range (pyInt ((self.amount_sets : ℚ) / 2)).toNat).map
    (fun _ => O.new_dataset_from_size_dict num_elements_per_class)

/-- Method `create_shadow_classifier_from_training_set` (source lines 139-158). -/
def create_shadow_classifier_from_training_set (O : Oracles) (self : AttackSelf)
    (num_elements_per_classes : ℤ × ℤ) : List ℚ :=
  O.train_shadow_classifiers
    (create_shadow_training_sets O self num_elements_per_classes)
    num_elements_per_classes

/-- The per-class sample counts computed inside
`prediction_on_specific_property` (source lines 226-230):
`classes[0]` maps to `int((1 - ratio) * size_shadow_training_set)` and
`classes[1]` maps to `int(ratio * size_shadow_training_set)`. -/
def property_num_elements_per_classes (self : AttackSelf) (r : ℚ) : ℤ × ℤ :=
  (pyInt ((1 - r) * (self.size_shadow_training_set : ℚ)),
   pyInt (r * (self.size_shadow_training_set : ℚ)))

/-- Counterpart of `property_num_elements_per_classes` written from the spec's
words for the comparison in the rounding claim: each count is the
nearest-integer rounding (Python `round`) of the exact product. -/
def property_num_elements_per_classes_specWords (self : AttackSelf) (r : ℚ) : ℤ × ℤ :=
  (roundHalfEven ((1 - r) * (self.size_shadow_training_set : ℚ)),
   roundHalfEven (r * (self.size_shadow_training_set : ℚ)))

/-- Method `prediction_on_specific_property` (source lines 212-250). -/
def prediction_on_specific_property (O : Oracles) (self : AttackSelf)
    (feature_extraction_target_model : ℚ)
    (shadow_classifiers_neg_property : List ℚ) (r : ℚ) : ℚ :=
  let property_num := property_num_elements_per_classes self r
  let shadow_classifiers_property :=
    create_shadow_classifier_from_training_set O self property_num
  let meta := O.create_meta_training_set shadow_classifiers_property
    shadow_classifiers_neg_property
  let meta_classifier := O.train_meta_classifier meta
  O.perform_prediction meta_classifier feature_extraction_target_model

/-- Python `max(items, key=...)` over (ratio, probability) pairs keyed by the
probability: the first pair attaining the maximal probability, `none` on an
empty sequence (where Python raises `ValueError`). -/
def pyMax (l : List (ℚ × ℚ)) : Option (ℚ × ℚ) :=
  match l with
  | [] => none
  | x :: xs => some (xs.foldl (fun acc y => if acc.2 < y.2 then y else acc) x)

/-- The output-dictionary key `"class {c0}: {round(1-r, 5)}, class {c1}: {round(r, 5)}"`
of `output_attack`, kept structurally. -/
structure OutKey where
  class0 : ℤ
  val0 : ℚ
  class1 : ℤ
  val1 : ℚ
deriving DecidableEq

/-- Formats the output-dictionary key for one ratio (source lines 174-176). -/
def fmtKey (classes : List ℤ) (r : ℚ) : OutKey :=
  ⟨classes.getD 0 0, pyRound5 (1 - r), classes.getD 1 0, pyRound5 r⟩

/-- One Python dict assignment `d[k] = v`: overwrites in place when the key
exists, appends in insertion order otherwise. -/
def dictInsert (d : List (OutKey × ℚ)) (k : OutKey) (v : ℚ) : List (OutKey × ℚ) :=
  if d.any (fun kv => kv.1 = k) then
    d.map (fun kv => if kv.1 = k then (k, v) else kv)
  else d ++ [(k, v)]

/-- The `output` dictionary built by the loop of `output_attack`
(source lines 171-177). -/
def buildOutputDict (classes : List ℤ) (predictions_ratios : List (ℚ × ℚ)) :
    List (OutKey × ℚ) :=
  predictions_ratios.foldl (fun d p => dictInsert d (fmtKey classes p.1) p.2) []

/-- The summary message of `output_attack`, kept structurally: the
most-probable-property message of the multi-ratio branch, or one of the two
single-ratio comparison messages. -/
inductive AttackMessage where
  | mostProbable (class0 : ℤ) (val0 : ℚ) (class1 : ℤ) (val1 : ℚ) (prob : ℚ)
  | givenMoreLikely (class0 : ℤ) (val0 : ℚ) (class1 : ℤ) (val1 : ℚ)
  | balancedMoreLikely (class0 : ℤ) (val0 : ℚ) (class1 : ℤ) (val1 : ℚ)
deriving DecidableEq

/-- The report object `UserOutputPropertyInferenceAttack(max_message, output)`. -/
structure UserOutputPropertyInferenceAttack where
  max_message : AttackMessage
  output : List (OutKey × ℚ)
deriving DecidableEq

/-- Method `output_attack` (source lines 160-210). The second component of the
result records whether the low-confidence warning was logged. -/
def output_attack (self : AttackSelf) (predictions_ratios : List (ℚ × ℚ)) :
    Except PyError (UserOutputPropertyInferenceAttack × Bool) :=
  match pyMax predictions_ratios with
  | none => .error (.valueError "max() arg is an empty sequence")
  | some max_property =>
    let output := buildOutputDict self.classes predictions_ratios
    if 2 ≤ self.ratios_for_attack.length then
      .ok (⟨.mostProbable (self.classes.getD 0 0) (pyRound5 (1 - max_property.1))
              (self.classes.getD 1 0) (pyRound5 max_property.1)
              ((predictions_ratios.lookup max_property.1).getD 0),
            output⟩, false)
    else
      match predictions_ratios.head?, self.ratios_for_attack.head? with
      | some firstPred, some firstRatio =>
        let msg :=
          if 1/2 < firstPred.2 then
            AttackMessage.givenMoreLikely (self.classes.getD 0 0)
              (pyRound5 (1 - firstRatio)) (self.classes.getD 1 0) (pyRound5 firstRatio)
          else
            AttackMessage.balancedMoreLikely (self.classes.getD 0 0)
              (pyRound5 (1 - firstRatio)) (self.classes.getD 1 0) (pyRound5 firstRatio)
        .ok (⟨msg, output⟩, decide (|firstPred.2 - 1/2| ≤ 1/20))
      | _, _ => .error .indexError

/-- Auxiliary recursion for `dedupKeys`, carrying the keys already seen. -/
def dedupKeysAux : List ℚ → List ℚ → List ℚ
  | [], _ => []
  | x :: xs, seen =>
    if x ∈ seen then dedupKeysAux xs seen else x :: dedupKeysAux xs (x :: seen)

/-- Key sequence of `OrderedDict.fromkeys(l)`: first occurrences in order. -/
def dedupKeys (l : List ℚ) : List ℚ := dedupKeysAux l []

/-- Events recording the shape of one `attack()` run: one per feature
extraction of the target model, one per construction of a balanced
(negation-of-property) shadow pool, one per per-ratio sub-attack with the
feature vector and negation pool it receives. -/
inductive Event where
  | featureExtractionEv (features : ℚ)
  | buildNegPoolEv (pool : List ℚ)
  | subAttackEv (r : ℚ) (features : ℚ) (pool : List ℚ)
deriving DecidableEq

/-- The balanced per-class counts of `attack` (source lines 271-277). -/
def neg_property_num_elements_per_class (self : AttackSelf) : ℤ × ℤ :=
  (pyInt ((1 - self.negative_ratio) * (self.size_shadow_training_set : ℚ)),
   pyInt (self.negative_ratio * (self.size_shadow_training_set : ℚ)))

/-- Body of `attack` (source lines 252-310) after the in-place sort of
`ratios_for_attack`: feature extraction, one negation pool, the per-ratio
sweep over the sorted ratio list (`OrderedDict.fromkeys` deduplicates the
prediction keys) and the final `output_attack`. Also returns the event trace
of the run. -/
def attack_body (O : Oracles) (self : AttackSelf) (sorted_ratios : List ℚ) :
    Except PyError (UserOutputPropertyInferenceAttack × Bool) × List Event :=
  let feature_extraction_target_model := O.feature_extraction self.target_model
  let shadow_classifiers_neg_property :=
    create_shadow_classifier_from_training_set O self
      (neg_property_num_elements_per_class self)
  let self' := { self with ratios_for_attack := sorted_ratios }
  let predictions := (dedupKeys sorted_ratios).map (fun r =>
    (r, prediction_on_specific_property O self' feature_extraction_target_model
      shadow_classifiers_neg_property r))
  (output_attack self' predictions,
   Event.featureExtractionEv feature_extraction_target_model
     :: Event.buildNegPoolEv shadow_classifiers_neg_property
     :: sorted_ratios.map (fun r =>
          Event.subAttackEv r feature_extraction_target_model
            shadow_classifiers_neg_property))

/-- Method `attack` (source lines 252-310): sorts `ratios_for_attack` ascending and
runs `attack_body` on the sorted list. -/
def attack (O : Oracles) (self : AttackSelf) :
    Except PyError (UserOutputPropertyInferenceAttack × Bool) × List Event :=
  attack_body O self (self.ratios_for_attack.insertionSort (· ≤ ·))

/-- Concrete oracle instance used by closed witnesses and counterexamples. -/
def trivialOracles : Oracles :=
  ⟨fun _ => 0, fun _ => 0, fun _ _ => [], fun _ _ => (0, 0), fun _ => 0, fun _ _ => 0⟩

/-- Boolean recogniser for feature-extraction events. -/
def isFeatureExtractionEv : Event → Bool
  | .featureExtractionEv _ => true
  | _ => false

/-- Boolean recogniser for negation-pool construction events. -/
def isBuildNegPoolEv : Event → Bool
  | .buildNegPoolEv _ => true
  | _ => false

/-- A store of Python list objects: reference `0` is the module-level
`RATIOS_FOR_ATTACK` list, fresh references are allocated from `next`. -/
structure PyListStore where
  store : ℕ → List ℚ
  next : ℕ

/-- Reference of the module-level `RATIOS_FOR_ATTACK` list object. -/
def defaultRatiosRef : ℕ := 0

/-- The store at module import time: the one default list object. -/
def initialStore : PyListStore :=
  ⟨fun i => if i = defaultRatiosRef then RATIOS_FOR_ATTACK else [], 1⟩

/-- Binding of the constructor's `ratios_for_attack` argument under Python
reference semantics: passing no argument aliases the module-level default
list object; passing a list stores that object under a fresh reference. -/
def constructInstance (s : PyListStore) (arg : Option (List ℚ)) : ℕ × PyListStore :=
  match arg with
  | none => (defaultRatiosRef, s)
  | some l => (s.next, ⟨fun i => if i = s.next then l else s.store i, s.next + 1⟩)

/-- Method `attack` under Python reference semantics: line 291's
`self.ratios_for_attack.sort()` overwrites the list object the instance's
`ratios_for_attack` reference points to with its ascending sort, then the
rest of the method runs on the sorted list. -/
def attack_stateful (O : Oracles) (s : PyListStore) (self : AttackSelf) (ref : ℕ) :
    (Except PyError (UserOutputPropertyInferenceAttack × Bool) × List Event)
      × PyListStore :=
  let sorted := (s.store ref).insertionSort (· ≤ ·)
  (attack_body O self sorted,
   ⟨fun i => if i = ref then sorted else s.store i, s.next⟩)

/-- Slicing specification of the membership-inference analysis. -/
structure Slicing where
  entire_dataset : Bool
  by_classification_correctness : Bool
  by_class : Bool
deriving DecidableEq

/-- Description of a slice, kept structurally. -/
inductive SliceDesc where
  | entireDataset
  | correctlyClassified
  | incorrectlyClassified
  | classLabel (label : ℕ)
deriving DecidableEq

/-- A slice: an index set into the evaluation data plus its description. -/
structure DataSlice where
  indices : List ℕ
  desc : SliceDesc
deriving DecidableEq

/-- The target classifier as the membership-inference analysis sees it:
per-sample class-probability rows and the class count. -/
structure MIModel (X : Type) where
  predict : List X → List (List ℚ)
  nb_classes : ℕ

/-- Auxiliary recursion for `argmaxIdx`: current index, best index so far and
its value. -/
def argmaxIdxAux : List ℚ → ℕ → ℕ → ℚ → ℕ
  | [], _, best, _ => best
  | q :: rest, i, best, bestVal =>
    if bestVal < q then argmaxIdxAux rest (i + 1) i q
    else argmaxIdxAux rest (i + 1) best bestVal

/-- Embedding of `np.argmax` over one row: first index attaining the maximum. -/
def argmaxIdx : List ℚ → ℕ
  | [] => 0
  | q :: rest => argmaxIdxAux rest 1 0 q

/-- Embedding of `np.argwhere(bs == b).flatten()`: indices whose entry equals `b`. -/
def argwhereIdx (bs : List Bool) (b : Bool) : List ℕ :=
  bs.enum.filterMap (fun p => if p.2 = b then some p.1 else none)

/-- The `slices` generator (membership-inference source lines 138-168), as
the list of slices it yields in order. -/
def slices {X : Type} (x : List X) (y : List (List ℚ)) (target_model : MIModel X)
    (slicing : Slicing) : List DataSlice :=
  (if slicing.entire_dataset then
     [⟨List.range x.length, .entireDataset⟩]
   else [])
  ++ (if slicing.by_classification_correctness then
        let prediction := (target_model.predict x).map argmaxIdx
        let result := List.zipWith (fun a b => decide (a = b)) prediction
          (y.map argmaxIdx)
        [⟨argwhereIdx result true, .correctlyClassified⟩,
         ⟨argwhereIdx result false, .incorrectlyClassified⟩]
      else [])
  ++ (if slicing.by_class then
        (List.range target_model.nb_classes).map (fun label =>
          ⟨argwhereIdx ((y.map argmaxIdx).map (fun v => decide (label = v))) true,
           .classLabel label⟩)
      else [])

/-- One per-slice result of the analysis. -/
structure UserOutputInferenceAttackAnalysis where
  slice : DataSlice
  advantage : ℚ
  accuracy : ℚ
deriving DecidableEq

/-- Uninterpreted membership-inference attack: the fitted attack model's
per-slice scoring (`attack.attack`, `metrics.roc_curve`, the advantage and
accuracy computations of lines 113-127), as a function of the slice's
membership labels and index set. -/
structure MIAttackOracle where
  score : List ℕ → ℚ × ℚ

/-- Method `MembershipInferenceAttackAnalysis.analyse` (source lines 73-135): fits
the attack once (uninterpreted), then maps every generated slice to its
per-slice result. -/
def analyse {X : Type} (A : MIAttackOracle) (target_model : MIModel X)
    (x : List X) (y : List (List ℚ)) (membership : List ℕ)
    (slicing : Slicing) : List UserOutputInferenceAttackAnalysis :=
  (slices x y target_model slicing).map (fun sl =>
    ⟨sl, (A.score sl.indices).1, (A.score sl.indices).2⟩)

/-- Concrete attack state for the truncation counterexample: clamped size 11,
single sweep ratio 0.7. -/
def selfC2 : AttackSelf := ⟨0, 2, 11, [0.7], 0.5, [0, 1]⟩

/-- Concrete attack state with a duplicated sweep ratio. -/
def selfC5 : AttackSelf := ⟨0, 2, 10, [0.3, 0.3], 0.5, [0, 1]⟩

/-- Concrete attack state with an empty ratio sweep. -/
def selfC9 : AttackSelf := ⟨0, 2, 1000, [], 0.5, [0, 1]⟩

/-- Concrete attack state for the single-ratio scenario. -/
def selfC4 : AttackSelf := ⟨0, 2, 100, [0.8], 0.5, [0, 1]⟩

/-- Concrete attack state for the two-ratio scenario. -/
def selfC3 : AttackSelf := ⟨0, 2, 100, [0.3, 0.9], 0.5, [0, 1]⟩

theorem clampLoop_fst_foldl (labels : List ℤ) (cs : List ℤ) (size : ℤ) :
    (clampLoop labels cs size).1
      = cs.foldl (fun s i => min s (countClass labels i)) size := by
  induction cs generalizing size with
  | nil => simp [clampLoop]
  | cons i rest ih =>
    simp only [clampLoop, List.foldl_cons]
    by_cases h : countClass labels i < size
    · simp only [if_pos h]
      rw [ih]
      congr 1
      omega
    · simp only [if_neg h]
      rw [ih]
      congr 1
      omega

theorem clampLoop_pair_fst (labels : List ℤ) (a b size : ℤ) :
    (clampLoop labels [a, b] size).1
      = min (min size (countClass labels a)) (countClass labels b) := by
  rw [clampLoop_fst_foldl]
  simp

theorem clampLoop_pair_warnings_ne_nil (labels : List ℤ) (a b size : ℤ)
    (h : countClass labels a < size ∨ countClass labels b < size) :
    (clampLoop labels [a, b] size).2 ≠ [] := by
  simp only [clampLoop]
  by_cases ha : countClass labels a < size
  · simp [ha]
  · have hb : countClass labels b < size := by tauto
    simp [ha, hb]

theorem pyMax_aux_mem (xs : List (ℚ × ℚ)) (x : ℚ × ℚ) :
    xs.foldl (fun acc y => if acc.2 < y.2 then y else acc) x ∈ x :: xs := by
  induction xs generalizing x with
  | nil => simp
  | cons y ys ih =>
    simp only [List.foldl_cons]
    by_cases h : x.2 < y.2
    · simp only [if_pos h]
      have := ih y
      simp at this ⊢
      tauto
    · simp only [if_neg h]
      have := ih x
      simp at this ⊢
      tauto

theorem pyMax_aux_ge_acc (xs : List (ℚ × ℚ)) (x : ℚ × ℚ) :
    x.2 ≤ (xs.foldl (fun acc y => if acc.2 < y.2 then y else acc) x).2 := by
  induction xs generalizing x with
  | nil => simp
  | cons y ys ih =>
    simp only [List.foldl_cons]
    by_cases h : x.2 < y.2
    · simp only [if_pos h]
      exact le_of_lt (lt_of_lt_of_le h (ih y))
    · simp only [if_neg h]
      exact ih x

theorem pyMax_aux_ge_mem (xs : List (ℚ × ℚ)) (x : ℚ × ℚ) :
    ∀ p ∈ xs, p.2 ≤ (xs.foldl (fun acc y => if acc.2 < y.2 then y else acc) x).2 := by
  induction xs generalizing x with
  | nil => simp
  | cons y ys ih =>
    intro p hp
    simp only [List.foldl_cons]
    by_cases h : x.2 < y.2
    · simp only [if_pos h]
      rcases List.mem_cons.1 hp with heq | hp'
      · exact heq ▸ pyMax_aux_ge_acc ys y
      · exact ih y p hp'
    · simp only [if_neg h]
      rcases List.mem_cons.1 hp with heq | hp'
      · exact heq ▸ le_trans (le_of_not_lt h) (pyMax_aux_ge_acc ys x)
      · exact ih x p hp'

theorem pyMax_mem {l : List (ℚ × ℚ)} {m : ℚ × ℚ} (h : pyMax l = some m) : m ∈ l := by
  cases l with
  | nil => simp [pyMax] at h
  | cons x xs =>
    simp only [pyMax, Option.some.injEq] at h
    rw [← h]
    exact pyMax_aux_mem xs x

theorem pyMax_is_max {l : List (ℚ × ℚ)} {m : ℚ × ℚ} (h : pyMax l = some m) :
    ∀ p ∈ l, p.2 ≤ m.2 := by
  cases l with
  | nil => simp [pyMax] at h
  | cons x xs =>
    simp only [pyMax, Option.some.injEq] at h
    intro p hp
    rw [← h]
    rcases List.mem_cons.1 hp with heq | hp'
    · exact heq ▸ pyMax_aux_ge_acc xs x
    · exact pyMax_aux_ge_mem xs x p hp'

theorem pyMax_isSome {l : List (ℚ × ℚ)} (h : l ≠ []) : ∃ m, pyMax l = some m := by
  cases l with
  | nil => simp at h
  | cons x xs => exact ⟨_, rfl⟩

theorem lookup_nodup {l : List (ℚ × ℚ)} {k v} (hn : (l.map Prod.fst).Nodup)
    (hm : (k, v) ∈ l) : l.lookup k = some v := by
  induction l with
  | nil => simp at hm
  | cons p rest ih =>
    simp only [List.map_cons, List.nodup_cons] at hn
    rcases List.mem_cons.1 hm with heq | hm'
    · rw [← heq]
      simp [List.lookup]
    · have hne : ¬ (k == p.1) = true := by
        intro hb
        have hke : k = p.1 := by simpa using hb
        exact hn.1 (hke ▸ (List.mem_map.2 ⟨(k, v), hm', rfl⟩))
      simp only [List.lookup]
      rw [Bool.eq_false_iff.2 hne]
      exact ih hn.2 hm'

theorem mem_dedupKeysAux (l : List ℚ) :
    ∀ (seen : List ℚ) (a : ℚ), a ∈ dedupKeysAux l seen ↔ a ∈ l ∧ a ∉ seen := by
  induction l with
  | nil => simp [dedupKeysAux]
  | cons x xs ih =>
    intro seen a
    simp only [dedupKeysAux]
    by_cases hx : x ∈ seen
    · rw [if_pos hx, ih]
      constructor
      · rintro ⟨h1, h2⟩
        exact ⟨List.mem_cons_of_mem _ h1, h2⟩
      · rintro ⟨h1, h2⟩
        rcases List.mem_cons.1 h1 with rfl | h1'
        · exact absurd hx h2
        · exact ⟨h1', h2⟩
    · rw [if_neg hx]
      simp only [List.mem_cons, ih]
      constructor
      · rintro (rfl | ⟨h1, h2⟩)
        · exact ⟨Or.inl rfl, hx⟩
        · exact ⟨Or.inr h1, fun hs => h2 (Or.inr hs)⟩
      · rintro ⟨h1 | h1, h2⟩
        · exact Or.inl h1
        · by_cases hax : a = x
          · exact Or.inl hax
          · exact Or.inr ⟨h1, by simp [hax, h2]⟩

theorem mem_dedupKeys {l : List ℚ} {a : ℚ} : a ∈ dedupKeys l ↔ a ∈ l := by
  rw [dedupKeys, mem_dedupKeysAux]
  simp

theorem nodup_dedupKeysAux (l : List ℚ) :
    ∀ seen : List ℚ, (dedupKeysAux l seen).Nodup := by
  induction l with
  | nil => simp [dedupKeysAux]
  | cons x xs ih =>
    intro seen
    simp only [dedupKeysAux]
    by_cases hx : x ∈ seen
    · rw [if_pos hx]; exact ih seen
    · rw [if_neg hx]
      refine List.nodup_cons.2 ⟨?_, ih (x :: seen)⟩
      rw [mem_dedupKeysAux]
      simp

theorem nodup_dedupKeys (l : List ℚ) : (dedupKeys l).Nodup := nodup_dedupKeysAux l []

theorem dedupKeys_ne_nil {l : List ℚ} (h : l ≠ []) : dedupKeys l ≠ [] := by
  cases l with
  | nil => simp at h
  | cons x xs =>
    intro hc
    have : x ∈ dedupKeys (x :: xs) := mem_dedupKeys.2 (by simp)
    rw [hc] at this
    simp at this

theorem keys_dictInsert (d : List (OutKey × ℚ)) (k : OutKey) (v : ℚ) (x : OutKey) :
    x ∈ (dictInsert d k v).map Prod.fst ↔ x ∈ d.map Prod.fst ∨ x = k := by
  unfold dictInsert
  by_cases h : d.any (fun kv => kv.1 = k)
  · rw [if_pos h]
    have hk : k ∈ d.map Prod.fst := by
      rcases List.any_eq_true.1 h with ⟨kv, hkv, heq⟩
      have : kv.1 = k := by simpa using heq
      exact this ▸ List.mem_map.2 ⟨kv, hkv, rfl⟩
    have hmap : (d.map (fun kv => if kv.1 = k then (k, v) else kv)).map Prod.fst
        = d.map Prod.fst := by
      rw [List.map_map]
      refine List.map_congr_left ?_
      intro kv _
      by_cases hekv : kv.1 = k
      · simp [hekv]
      · simp [hekv]
    rw [hmap]
    constructor
    · exact Or.inl
    · rintro (hx | rfl)
      · exact hx
      · exact hk
  · rw [if_neg h]
    simp

theorem keys_foldl_dictInsert (classes : List ℤ) (preds : List (ℚ × ℚ)) :
    ∀ (d : List (OutKey × ℚ)) (x : OutKey),
    (x ∈ (preds.foldl (fun d p => dictInsert d (fmtKey classes p.1) p.2) d).map Prod.fst
      ↔ x ∈ d.map Prod.fst ∨ ∃ p ∈ preds, fmtKey classes p.1 = x) := by
  induction preds with
  | nil => simp
  | cons p ps ih =>
    intro d x
    simp only [List.foldl_cons]
    rw [ih, keys_dictInsert]
    constructor
    · rintro ((hx | rfl) | hex)
      · exact Or.inl hx
      · exact Or.inr ⟨p, by simp⟩
      · rcases hex with ⟨q, hq, hfq⟩
        exact Or.inr ⟨q, List.mem_cons_of_mem _ hq, hfq⟩
    · rintro (hx | ⟨q, hq, hfq⟩)
      · exact Or.inl (Or.inl hx)
      · rcases List.mem_cons.1 hq with rfl | hq'
        · exact Or.inl (Or.inr hfq.symm)
        · exact Or.inr ⟨q, hq', hfq⟩

theorem keys_buildOutputDict (classes : List ℤ) (preds : List (ℚ × ℚ)) (x : OutKey) :
    x ∈ (buildOutputDict classes preds).map Prod.fst
      ↔ ∃ p ∈ preds, fmtKey classes p.1 = x := by
  rw [buildOutputDict, keys_foldl_dictInsert]
  simp

theorem length_dictInsert_of_not_mem (d : List (OutKey × ℚ)) (k : OutKey) (v : ℚ)
    (h : k ∉ d.map Prod.fst) :
    (dictInsert d k v).length = d.length + 1 := by
  unfold dictInsert
  have : ¬ d.any (fun kv => kv.1 = k) := by
    intro hc
    rcases List.any_eq_true.1 hc with ⟨kv, hkv, hekv⟩
    have hkv1 : kv.1 = k := by simpa using hekv
    exact h (hkv1 ▸ List.mem_map.2 ⟨kv, hkv, rfl⟩)
  rw [if_neg this]
  simp

theorem length_foldl_dictInsert (classes : List ℤ) (preds : List (ℚ × ℚ)) :
    ∀ d : List (OutKey × ℚ),
    (preds.map (fun p => fmtKey classes p.1)).Nodup →
    (∀ p ∈ preds, fmtKey classes p.1 ∉ d.map Prod.fst) →
    (preds.foldl (fun d p => dictInsert d (fmtKey classes p.1) p.2) d).length
      = d.length + preds.length := by
  induction preds with
  | nil => simp
  | cons p ps ih =>
    intro d hnd hnew
    simp only [List.map_cons, List.nodup_cons] at hnd
    simp only [List.foldl_cons]
    rw [ih (dictInsert d (fmtKey classes p.1) p.2) hnd.2]
    · rw [length_dictInsert_of_not_mem d _ _ (hnew p (by simp))]
      simp only [List.length_cons]
      omega
    · intro q hq
      rw [keys_dictInsert]
      rintro (hmem | heq)
      · exact hnew q (List.mem_cons_of_mem _ hq) hmem
      · exact hnd.1 (heq ▸ List.mem_map.2 ⟨q, hq, rfl⟩)

theorem length_buildOutputDict (classes : List ℤ) (preds : List (ℚ × ℚ))
    (hnd : (preds.map (fun p => fmtKey classes p.1)).Nodup) :
    (buildOutputDict classes preds).length = preds.length := by
  rw [buildOutputDict, length_foldl_dictInsert classes preds [] hnd (by simp)]
  simp

theorem dedupKeysAux_of_nodup (l : List ℚ) :
    ∀ seen : List ℚ, l.Nodup → (∀ a ∈ l, a ∉ seen) → dedupKeysAux l seen = l := by
  induction l with
  | nil => simp [dedupKeysAux]
  | cons x xs ih =>
    intro seen hnd hdisj
    simp only [List.nodup_cons] at hnd
    rw [dedupKeysAux, if_neg (hdisj x (by simp))]
    congr 1
    refine ih (x :: seen) hnd.2 ?_
    intro a ha hmem
    rcases List.mem_cons.1 hmem with rfl | hmem'
    · exact hnd.1 ha
    · exact hdisj a (List.mem_cons_of_mem _ ha) hmem'

theorem dedupKeys_of_nodup {l : List ℚ} (h : l.Nodup) : dedupKeys l = l :=
  dedupKeysAux_of_nodup l [] h (by simp)

theorem output_attack_ok_of_ne_nil (self : AttackSelf) (preds : List (ℚ × ℚ))
    (hp : preds ≠ []) (hr : self.ratios_for_attack ≠ []) :
    ∃ u w, output_attack self preds = .ok (u, w)
      ∧ u.output = buildOutputDict self.classes preds := by
  obtain ⟨m, hm⟩ := pyMax_isSome hp
  obtain ⟨q, qs, rfl⟩ := List.exists_cons_of_ne_nil hp
  obtain ⟨r0, rs, hr0⟩ := List.exists_cons_of_ne_nil hr
  simp only [output_attack, hm]
  by_cases hlen : 2 ≤ self.ratios_for_attack.length
  · rw [if_pos hlen]
    exact ⟨_, _, rfl, rfl⟩
  · rw [if_neg hlen, hr0]
    simp only [List.head?_cons]
    by_cases hgt : 1/2 < q.2
    · rw [if_pos hgt]
      exact ⟨_, _, rfl, rfl⟩
    · rw [if_neg hgt]
      exact ⟨_, _, rfl, rfl⟩

theorem initAttack_ok (target : ℚ) (labels : List ℤ) (amount_sets size : ℤ)
    (ratios : List ℚ) (nr : ℚ) (a b : ℤ) (ha : a ∈ labels) (hb : b ∈ labels)
    (heven : amount_sets % 2 = 0) (hge : 2 ≤ amount_sets) :
    initAttack target labels amount_sets size ratios nr [a, b]
      = .ok (⟨target, amount_sets, (clampLoop labels [a, b] size).1, ratios, nr, [a, b]⟩,
             (clampLoop labels [a, b] size).2) := by
  have hlen : ¬ ([a, b].length ≠ 2) := by simp
  have hany : ¬ ([a, b].any (fun c => decide (c ∉ labels)) = true) := by
    simp [ha, hb]
  have hsup : ¬ (amount_sets % 2 ≠ 0 ∨ amount_sets < 2) := by omega
  rw [initAttack, if_neg hlen, if_neg hany]
  simp only [superInitPropertyInferenceAttack, if_neg hsup]

/-- Claim C1: when some class in `classes` has fewer available samples than
the requested shadow-training-set size, construction clamps the effective
size down to the available count of the smallest class, logs a warning and
does not raise, and a subsequent attack() sweep completes and produces a
full report (every input ratio's description key is present in the output
mapping). -/
theorem C1_clamp_then_sweep_completes (O : Oracles) (target : ℚ)
    (labels : List ℤ) (amount_sets S : ℤ) (ratios : List ℚ) (nr : ℚ) (a b : ℤ)
    (ha : a ∈ labels) (hb : b ∈ labels)
    (heven : amount_sets % 2 = 0) (hge : 2 ≤ amount_sets)
    (hsmall : countClass labels a < S ∨ countClass labels b < S)
    (hratios : ratios ≠ []) :
    ∃ self warns,
      initAttack target labels amount_sets S ratios nr [a, b] = .ok (self, warns)
      ∧ self.size_shadow_training_set
          = min (countClass labels a) (countClass labels b)
      ∧ warns ≠ []
      ∧ ∃ u w, (attack O self).1 = .ok (u, w)
        ∧ ∀ r ∈ ratios, fmtKey [a, b] r ∈ u.output.map Prod.fst := by
  refine ⟨_, _, initAttack_ok target labels amount_sets S ratios nr a b
    ha hb heven hge, ?_, clampLoop_pair_warnings_ne_nil labels a b S hsmall, ?_⟩
  · show (clampLoop labels [a, b] S).1 = _
    rw [clampLoop_pair_fst]
    omega
  · set self₀ : AttackSelf :=
      ⟨target, amount_sets, (clampLoop labels [a, b] S).1, ratios, nr, [a, b]⟩
    set sorted := ratios.insertionSort (· ≤ ·) with hsorted
    have hperm : sorted.Perm ratios := List.perm_insertionSort _ ratios
    have hsne : sorted ≠ [] := by
      intro hc
      have hlen0 := hperm.length_eq
      rw [hc] at hlen0
      simp only [List.length_nil] at hlen0
      exact hratios (List.eq_nil_of_length_eq_zero hlen0.symm)
    have hkeys : dedupKeys sorted ≠ [] := dedupKeys_ne_nil hsne
    set self' : AttackSelf := { self₀ with ratios_for_attack := sorted }
    set preds := (dedupKeys sorted).map (fun r =>
      (r, prediction_on_specific_property O self'
        (O.feature_extraction self₀.target_model)
        (create_shadow_classifier_from_training_set O self₀
          (neg_property_num_elements_per_class self₀)) r)) with hpreds
    have hpne : preds ≠ [] := by
      rw [hpreds]
      intro hc
      exact hkeys (List.map_eq_nil_iff.1 hc)
    have hrne : self'.ratios_for_attack ≠ [] := hsne
    obtain ⟨u, w, hu, hout⟩ := output_attack_ok_of_ne_nil self' preds hpne hrne
    refine ⟨u, w, ?_, ?_⟩
    · show (attack O self₀).1 = _
      rw [show (attack O self₀).1 = output_attack self' preds from rfl, hu]
    · intro r hr
      rw [hout]
      rw [show self'.classes = [a, b] from rfl] at *
      rw [keys_buildOutputDict]
      refine ⟨(r, prediction_on_specific_property O self'
        (O.feature_extraction self₀.target_model)
        (create_shadow_classifier_from_training_set O self₀
          (neg_property_num_elements_per_class self₀)) r), ?_, rfl⟩
      rw [hpreds]
      exact List.mem_map.2 ⟨r, mem_dedupKeys.2 (hperm.mem_iff.2 hr), rfl⟩

/-- Claim C1 witness: a dataset with one sample per class, requested size 5,
a one-ratio sweep; construction clamps to 1 with a warning and the sweep
completes with the ratio's key in the report. -/
theorem C1_clamp_then_sweep_completes_witness :
    ∃ self warns,
      initAttack 0 [0, 1] 2 5 [0.3] (1/2) [0, 1] = .ok (self, warns)
      ∧ self.size_shadow_training_set
          = min (countClass [0, 1] 0) (countClass [0, 1] 1)
      ∧ warns ≠ []
      ∧ ∃ u w, (attack trivialOracles self).1 = .ok (u, w)
        ∧ ∀ r ∈ [(0.3:ℚ)], fmtKey [0, 1] r ∈ u.output.map Prod.fst :=
  C1_clamp_then_sweep_completes trivialOracles 0 [0, 1] 2 5 [0.3] (1/2) 0 1
    (by simp) (by simp) (by decide) (by decide)
    (Or.inl (by norm_num [countClass])) (by simp)

/-- Claim C2, counterexample: with effective shadow-training-set size 11 and
ratio 0.7, the code computes the class-1 count `int(0.7 * 11) = 7`, while the
nearest-integer rounding of the exact product 7.7 demanded by the claim is 8:
the per-class counts are truncations of the products, not their roundings. -/
theorem C2_rounding_counterexample :
    property_num_elements_per_classes selfC2 0.7 = (3, 7)
    ∧ property_num_elements_per_classes_specWords selfC2 0.7 = (3, 8)
    ∧ property_num_elements_per_classes selfC2 0.7
        ≠ property_num_elements_per_classes_specWords selfC2 0.7 := by
  have h1 : ((1:ℚ) - 0.7) * ((11:ℤ) : ℚ) = 33/10 := by norm_num
  have h2 : (0.7:ℚ) * ((11:ℤ) : ℚ) = 77/10 := by norm_num
  have hf1 : ⌊(33:ℚ)/10⌋ = 3 := by norm_num [Int.floor_eq_iff]
  have hf2 : ⌊(77:ℚ)/10⌋ = 7 := by norm_num [Int.floor_eq_iff]
  have hr1 : roundHalfEven (33/10) = 3 := by
    rw [roundHalfEven, hf1]
    norm_num
  have hr2 : roundHalfEven (77/10) = 8 := by
    rw [roundHalfEven, hf2]
    norm_num
  refine ⟨?_, ?_, ?_⟩
  · show (pyInt (((1:ℚ) - 0.7) * ((11:ℤ) : ℚ)), pyInt ((0.7:ℚ) * ((11:ℤ) : ℚ)))
      = (3, 7)
    rw [h1, h2, pyInt, pyInt, if_pos (by norm_num), if_pos (by norm_num), hf1, hf2]
  · show (roundHalfEven (((1:ℚ) - 0.7) * ((11:ℤ) : ℚ)),
          roundHalfEven ((0.7:ℚ) * ((11:ℤ) : ℚ))) = (3, 8)
    rw [h1, h2, hr1, hr2]
  · show (pyInt (((1:ℚ) - 0.7) * ((11:ℤ) : ℚ)), pyInt ((0.7:ℚ) * ((11:ℤ) : ℚ)))
      ≠ (roundHalfEven (((1:ℚ) - 0.7) * ((11:ℤ) : ℚ)),
         roundHalfEven ((0.7:ℚ) * ((11:ℤ) : ℚ)))
    rw [h1, h2, pyInt, pyInt, if_pos (by norm_num), if_pos (by norm_num),
      hf1, hf2, hr1, hr2]
    simp

/-- Claim C2, amended: for every ratio in `[0, 1]` and nonnegative effective
size, the per-class counts used to build the skewed shadow pool are the
truncations (floors, for these nonnegative products) `int((1-r)*size)` for
class 0 and `int(r*size)` for class 1, not nearest-integer roundings. -/
theorem C2_counts_are_truncations (self : AttackSelf) (r : ℚ)
    (h0 : 0 ≤ r) (h1 : r ≤ 1) (hs : 0 ≤ self.size_shadow_training_set) :
    property_num_elements_per_classes self r
      = (⌊(1 - r) * (self.size_shadow_training_set : ℚ)⌋,
         ⌊r * (self.size_shadow_training_set : ℚ)⌋) := by
  have hs' : (0:ℚ) ≤ (self.size_shadow_training_set : ℚ) := by exact_mod_cast hs
  unfold property_num_elements_per_classes pyInt
  rw [if_pos (mul_nonneg (by linarith) hs'), if_pos (mul_nonneg h0 hs')]

/-- Claim C2 witness: the amended truncation equation evaluated at size 11
and ratio 0.7. -/
theorem C2_counts_are_truncations_witness :
    (0:ℚ) ≤ 0.7 ∧ (0.7:ℚ) ≤ 1 ∧ (0:ℤ) ≤ selfC2.size_shadow_training_set
    ∧ property_num_elements_per_classes selfC2 0.7
        = (⌊(1 - (0.7:ℚ)) * (selfC2.size_shadow_training_set : ℚ)⌋,
           ⌊(0.7:ℚ) * (selfC2.size_shadow_training_set : ℚ)⌋) :=
  ⟨by norm_num, by norm_num, by norm_num [selfC2],
   C2_counts_are_truncations selfC2 0.7 (by norm_num) (by norm_num)
     (by norm_num [selfC2])⟩

/-- Claim C3: whenever the sweep has at least two ratios and the prediction
mapping is a nonempty mapping (distinct keys), the summary message of
`output_attack` names a ratio whose predicted probability is maximal over
all ratios of the prediction mapping, together with that probability. -/
theorem C3_summary_names_maximal_ratio (self : AttackSelf)
    (preds : List (ℚ × ℚ)) (hlen : 2 ≤ self.ratios_for_attack.length)
    (hne : preds ≠ []) (hnd : (preds.map Prod.fst).Nodup) :
    ∃ m ∈ preds, (∀ p ∈ preds, p.2 ≤ m.2)
      ∧ output_attack self preds
          = .ok (⟨AttackMessage.mostProbable (self.classes.getD 0 0)
                   (pyRound5 (1 - m.1)) (self.classes.getD 1 0)
                   (pyRound5 m.1) m.2,
                 buildOutputDict self.classes preds⟩, false) := by
  obtain ⟨m, hm⟩ := pyMax_isSome hne
  have hmem := pyMax_mem hm
  refine ⟨m, hmem, pyMax_is_max hm, ?_⟩
  have hlk : preds.lookup m.1 = some m.2 := lookup_nodup hnd (by simpa using hmem)
  simp only [output_attack, hm, if_pos hlen, hlk, Option.getD_some]

/-- Claim C3 witness: a two-ratio sweep where ratio 0.9 has the larger
probability; the summary names it. -/
theorem C3_summary_names_maximal_ratio_witness :
    ∃ m ∈ [((0.3:ℚ), (0.2:ℚ)), (0.9, 0.7)],
      (∀ p ∈ [((0.3:ℚ), (0.2:ℚ)), (0.9, 0.7)], p.2 ≤ m.2)
      ∧ output_attack selfC3 [(0.3, 0.2), (0.9, 0.7)]
          = .ok (⟨AttackMessage.mostProbable (selfC3.classes.getD 0 0)
                   (pyRound5 (1 - m.1)) (selfC3.classes.getD 1 0)
                   (pyRound5 m.1) m.2,
                 buildOutputDict selfC3.classes [(0.3, 0.2), (0.9, 0.7)]⟩,
                false) :=
  C3_summary_names_maximal_ratio selfC3 [(0.3, 0.2), (0.9, 0.7)]
    (by norm_num [selfC3]) (by simp) (by norm_num)

/-- Claim C4: for a single-ratio sweep with predicted probability `p`,
`output_attack` reports the given distribution as more likely than a balanced
one exactly when `p > 0.5`, reports the balanced distribution as more likely
otherwise, and logs the low-confidence warning exactly when
`|p - 0.5| ≤ 0.05`. -/
theorem C4_single_ratio_comparison (self : AttackSelf) (r p : ℚ)
    (hr : self.ratios_for_attack = [r]) :
    ∃ u warn, output_attack self [(r, p)] = .ok (u, warn)
    ∧ (u.max_message = AttackMessage.givenMoreLikely (self.classes.getD 0 0)
         (pyRound5 (1 - r)) (self.classes.getD 1 0) (pyRound5 r) ↔ 1/2 < p)
    ∧ (u.max_message = AttackMessage.balancedMoreLikely (self.classes.getD 0 0)
         (pyRound5 (1 - r)) (self.classes.getD 1 0) (pyRound5 r) ↔ ¬ 1/2 < p)
    ∧ (warn = true ↔ |p - 1/2| ≤ 1/20) := by
  have hm : pyMax [(r, p)] = some (r, p) := rfl
  have hlen : ¬ 2 ≤ self.ratios_for_attack.length := by
    rw [hr]
    simp
  simp only [output_attack, hm, if_neg hlen, hr, List.head?_cons]
  by_cases hgt : 1/2 < p
  · rw [if_pos hgt]
    rw [one_div] at hgt
    exact ⟨_, _, rfl, by simp [hgt], by simp [hgt], by simp⟩
  · rw [if_neg hgt]
    rw [one_div] at hgt
    exact ⟨_, _, rfl, by simp [hgt], by simp [hgt], by simp⟩

/-- Claim C4 witness: the single-ratio sweep `[0.8]` with probability 0.52;
the given distribution is reported as the more likely one and the
low-confidence warning fires since `|0.52 - 0.5| = 0.02 ≤ 0.05`. -/
theorem C4_single_ratio_comparison_witness :
    ∃ u warn, output_attack selfC4 [(0.8, 0.52)] = .ok (u, warn)
    ∧ (u.max_message = AttackMessage.givenMoreLikely (selfC4.classes.getD 0 0)
         (pyRound5 (1 - 0.8)) (selfC4.classes.getD 1 0) (pyRound5 0.8)
        ↔ 1/2 < (0.52:ℚ))
    ∧ (u.max_message = AttackMessage.balancedMoreLikely (selfC4.classes.getD 0 0)
         (pyRound5 (1 - 0.8)) (selfC4.classes.getD 1 0) (pyRound5 0.8)
        ↔ ¬ 1/2 < (0.52:ℚ))
    ∧ (warn = true ↔ |(0.52:ℚ) - 1/2| ≤ 1/20) :=
  C4_single_ratio_comparison selfC4 0.8 0.52 rfl

/-- Claim C6: a class list whose length is not 2, a class absent from the
dataset's labels, or an odd `amount_sets` makes construction raise a
configuration error (no training oracle is ever consulted by construction);
and every configuration accepted by construction has an even `amount_sets`
of at least 2. -/
theorem C6_construction_validation (target : ℚ) (labels : List ℤ)
    (amount_sets size : ℤ) (ratios : List ℚ) (nr : ℚ) (classes : List ℤ) :
    ((classes.length ≠ 2 ∨ (∃ c ∈ classes, c ∉ labels) ∨ amount_sets % 2 ≠ 0)
      → ∃ e, initAttack target labels amount_sets size ratios nr classes
          = .error e)
    ∧ ∀ self warns,
        initAttack target labels amount_sets size ratios nr classes
            = .ok (self, warns)
        → self.amount_sets = amount_sets ∧ amount_sets % 2 = 0
          ∧ 2 ≤ amount_sets := by
  constructor
  · intro h
    by_cases hlen : classes.length ≠ 2
    · exact ⟨_, by rw [initAttack, if_pos hlen]⟩
    · by_cases hany : classes.any (fun c => decide (c ∉ labels)) = true
      · exact ⟨_, by rw [initAttack, if_neg hlen, if_pos hany]⟩
      · have hodd : amount_sets % 2 ≠ 0 := by
          rcases h with h | h | h
          · exact absurd h hlen
          · rcases h with ⟨c, hc, hcl⟩
            exact absurd (List.any_eq_true.2 ⟨c, hc, by simpa using hcl⟩) hany
          · exact h
        refine ⟨.valueError "amount_sets must be an even number of at least 2", ?_⟩
        rw [initAttack, if_neg hlen, if_neg hany]
        simp only [superInitPropertyInferenceAttack, if_pos (Or.inl hodd)]
  · intro self warns hok
    rw [initAttack] at hok
    by_cases hlen : classes.length ≠ 2
    · rw [if_pos hlen] at hok
      exact absurd hok (by simp)
    · rw [if_neg hlen] at hok
      by_cases hany : classes.any (fun c => decide (c ∉ labels)) = true
      · rw [if_pos hany] at hok
        exact absurd hok (by simp)
      · rw [if_neg hany] at hok
        by_cases hcond : amount_sets % 2 ≠ 0 ∨ amount_sets < 2
        · simp only [superInitPropertyInferenceAttack, if_pos hcond] at hok
          exact absurd hok (by simp)
        · simp only [superInitPropertyInferenceAttack, if_neg hcond] at hok
          have hself : self = ⟨target, amount_sets,
              (clampLoop labels classes size).1, ratios, nr, classes⟩ := by
            cases hok
            rfl
          refine ⟨by rw [hself], ?_, ?_⟩ <;> omega

/-- Claim C6 witness: `amount_sets = 3` (odd) with an otherwise valid
configuration is rejected at construction. -/
theorem C6_construction_validation_witness :
    ∃ e, initAttack 0 [0, 1] 3 1000 [] (1/2) [0, 1] = .error e :=
  (C6_construction_validation 0 [0, 1] 3 1000 [] (1/2) [0, 1]).1
    (Or.inr (Or.inr (by decide)))

/-- Claim C7: in one attack() run the target model's feature vector is
extracted exactly once and the balanced negation-of-property shadow pool is
built exactly once, both before the per-ratio sweep, and every per-ratio
sub-attack receives exactly these two values; no per-ratio iteration
re-extracts or rebuilds either. -/
theorem C7_features_and_pool_built_once (O : Oracles) (self : AttackSelf) :
    ∃ F pool,
      F = O.feature_extraction self.target_model
      ∧ pool = create_shadow_classifier_from_training_set O self
          (neg_property_num_elements_per_class self)
      ∧ (attack O self).2
          = Event.featureExtractionEv F :: Event.buildNegPoolEv pool
            :: (self.ratios_for_attack.insertionSort (· ≤ ·)).map
                 (fun r => Event.subAttackEv r F pool)
      ∧ (attack O self).2.countP isFeatureExtractionEv = 1
      ∧ (attack O self).2.countP isBuildNegPoolEv = 1
      ∧ ∀ e ∈ (attack O self).2, ∀ r f p, e = Event.subAttackEv r f p
          → f = F ∧ p = pool := by
  refine ⟨_, _, rfl, rfl, rfl, ?_, ?_, ?_⟩
  · show ((Event.featureExtractionEv _ :: Event.buildNegPoolEv _ :: _).countP
      isFeatureExtractionEv) = 1
    rw [List.countP_cons, List.countP_cons, List.countP_map]
    simp [isFeatureExtractionEv, Function.comp_def]
  · show ((Event.featureExtractionEv _ :: Event.buildNegPoolEv _ :: _).countP
      isBuildNegPoolEv) = 1
    rw [List.countP_cons, List.countP_cons, List.countP_map]
    simp [isBuildNegPoolEv, Function.comp_def]
  · intro e he r f p hef
    rcases List.mem_cons.1 he with rfl | he'
    · exact absurd hef (by simp)
    · rcases List.mem_cons.1 he' with rfl | he''
      · exact absurd hef (by simp)
      · rcases List.mem_map.1 he'' with ⟨r', _, rfl⟩
        cases hef
        exact ⟨rfl, rfl⟩

/-- Claim C8: the slices generator yields (index-set, description) pairs in
branch order, and a slicing specification with `entire_dataset`,
`by_classification_correctness` and `by_class` all unset yields zero slices,
so `analyse` returns an empty result sequence. -/
theorem C8_no_flags_no_slices {X : Type} (A : MIAttackOracle) (M : MIModel X)
    (x : List X) (y : List (List ℚ)) (membership : List ℕ) :
    slices x y M ⟨false, false, false⟩ = []
    ∧ analyse A M x y membership ⟨false, false, false⟩ = [] := by
  constructor <;> simp [slices, analyse]

/-- Claim C9, counterexample: with an empty ratio sweep the attack fails
with the `ValueError` raised by `max()` over the empty predictions mapping
(source line 169), not with an `IndexError` from indexing the first element
in the non-maximum branch - that branch is never reached. -/
theorem C9_error_class_counterexample :
    (attack trivialOracles selfC9).1
        = .error (.valueError "max() arg is an empty sequence")
    ∧ (attack trivialOracles selfC9).1 ≠ .error PyError.indexError := by
  constructor
  · rfl
  · rw [show (attack trivialOracles selfC9).1
        = .error (.valueError "max() arg is an empty sequence") from rfl]
    simp

/-- Claim C9, amended: an empty `ratios_for_attack` is not rejected at
construction, and the subsequent attack() does not return an Attack Output:
`output_attack` raises a `ValueError` at the `max()` call over the empty
predictions mapping, before the non-maximum branch and its indexing are
reached, so the failure is a `ValueError`, not an `IndexError` and not a
configuration error. -/
theorem C9_empty_sweep_value_error (O : Oracles) (target : ℚ)
    (labels : List ℤ) (amount_sets size : ℤ) (nr : ℚ) (a b : ℤ)
    (ha : a ∈ labels) (hb : b ∈ labels)
    (heven : amount_sets % 2 = 0) (hge : 2 ≤ amount_sets) :
    ∃ self warns,
      initAttack target labels amount_sets size [] nr [a, b] = .ok (self, warns)
      ∧ (attack O self).1 = .error (.valueError "max() arg is an empty sequence")
      ∧ (attack O self).1 ≠ .error PyError.indexError := by
  refine ⟨_, _, initAttack_ok target labels amount_sets size [] nr a b
    ha hb heven hge, rfl, ?_⟩
  rw [show (attack O (⟨target, amount_sets, (clampLoop labels [a, b] size).1,
      [], nr, [a, b]⟩ : AttackSelf)).1
    = .error (.valueError "max() arg is an empty sequence") from rfl]
  simp

/-- Claim C9 witness: the amended behaviour at a concrete configuration. -/
theorem C9_empty_sweep_value_error_witness :
    ∃ self warns,
      initAttack 0 [0, 1] 2 1 [] (1/2) [0, 1] = .ok (self, warns)
      ∧ (attack trivialOracles self).1
          = .error (.valueError "max() arg is an empty sequence")
      ∧ (attack trivialOracles self).1 ≠ .error PyError.indexError :=
  C9_empty_sweep_value_error trivialOracles 0 [0, 1] 2 1 (1/2) 0 1
    (by simp) (by simp) (by decide) (by decide)

/-- Claim C10: attack() sorts the caller's ratio list object in place: after
the run, the store's list at the instance's `ratios_for_attack` reference is
an ascending-sorted permutation of its previous contents; every instance
constructed without an explicit argument aliases the single module-level
`RATIOS_FOR_ATTACK` list object, while an explicit argument is stored under
a fresh reference holding exactly the passed list. -/
theorem C10_sorts_callers_list_in_place (O : Oracles) (s : PyListStore)
    (self : AttackSelf) (ref : ℕ) (s₀ : PyListStore) (l : List ℚ) :
    List.Sorted (· ≤ ·) ((attack_stateful O s self ref).2.store ref)
    ∧ ((attack_stateful O s self ref).2.store ref).Perm (s.store ref)
    ∧ (constructInstance s₀ none).1 = defaultRatiosRef
    ∧ (constructInstance s₀ (some l)).2.store (constructInstance s₀ (some l)).1 = l
    ∧ initialStore.store defaultRatiosRef = RATIOS_FOR_ATTACK := by
  have hstore : (attack_stateful O s self ref).2.store ref
      = (s.store ref).insertionSort (· ≤ ·) := by
    simp [attack_stateful]
  refine ⟨?_, ?_, rfl, ?_, rfl⟩
  · rw [hstore]
    exact List.sorted_insertionSort _ _
  · rw [hstore]
    exact List.perm_insertionSort _ _
  · simp [constructInstance]

/-- Claim C5, counterexample: with the duplicated input sweep `[0.3, 0.3]`
(two input ratios) the attack's output mapping has a single entry:
`OrderedDict.fromkeys` deduplicates the ratios, so the mapping does not have
one entry per input ratio. -/
theorem C5_duplicate_ratio_counterexample :
    selfC5.ratios_for_attack.length = 2
    ∧ ∃ u w, (attack trivialOracles selfC5).1 = .ok (u, w)
      ∧ u.output.length = 1 := by
  constructor
  · rfl
  · have hsort : selfC5.ratios_for_attack.insertionSort (· ≤ ·) = [0.3, 0.3] := by
      show ([(0.3:ℚ), 0.3]).insertionSort (· ≤ ·) = [0.3, 0.3]
      norm_num [List.insertionSort, List.orderedInsert]
    have hded : dedupKeys (selfC5.ratios_for_attack.insertionSort (· ≤ ·))
        = [0.3] := by
      rw [hsort]
      norm_num [dedupKeys, dedupKeysAux]
    set self' : AttackSelf :=
      { selfC5 with
        ratios_for_attack := selfC5.ratios_for_attack.insertionSort (· ≤ ·) }
      with hself'
    set preds := (dedupKeys (selfC5.ratios_for_attack.insertionSort (· ≤ ·))).map
      (fun r => (r, prediction_on_specific_property trivialOracles self'
        (trivialOracles.feature_extraction selfC5.target_model)
        (create_shadow_classifier_from_training_set trivialOracles selfC5
          (neg_property_num_elements_per_class selfC5)) r)) with hpreds
    have hpne : preds ≠ [] := by
      rw [hpreds, hded]
      simp
    have hrne : self'.ratios_for_attack ≠ [] := by
      show selfC5.ratios_for_attack.insertionSort (· ≤ ·) ≠ []
      rw [hsort]
      simp
    obtain ⟨u, w, hu, hout⟩ := output_attack_ok_of_ne_nil self' preds hpne hrne
    refine ⟨u, w, hu, ?_⟩
    rw [hout, length_buildOutputDict]
    · rw [hpreds, List.length_map, hded]
      rfl
    · rw [hpreds, hded]
      simp

/-- Claim C5, amended: for every input sweep whose ratios are pairwise
distinct and whose description-formatted keys are pairwise distinct, the
output mapping of attack() has exactly one entry per input ratio, and its
key set equals the set of description-formatted input ratios. -/
theorem C5_one_entry_per_distinct_ratio (O : Oracles) (self : AttackSelf)
    (hnd : self.ratios_for_attack.Nodup)
    (hinj : (self.ratios_for_attack.map (fmtKey self.classes)).Nodup)
    (hne : self.ratios_for_attack ≠ []) :
    ∃ u w, (attack O self).1 = .ok (u, w)
      ∧ u.output.length = self.ratios_for_attack.length
      ∧ ∀ k, (k ∈ u.output.map Prod.fst
          ↔ ∃ r ∈ self.ratios_for_attack, fmtKey self.classes r = k) := by
  have hperm : (self.ratios_for_attack.insertionSort (· ≤ ·)).Perm
      self.ratios_for_attack := List.perm_insertionSort _ _
  have hsne : self.ratios_for_attack.insertionSort (· ≤ ·) ≠ [] := by
    intro hc
    have h0 := hperm.length_eq
    rw [hc] at h0
    simp only [List.length_nil] at h0
    exact hne (List.eq_nil_of_length_eq_zero h0.symm)
  have hsnd : (self.ratios_for_attack.insertionSort (· ≤ ·)).Nodup :=
    (hperm.nodup_iff).2 hnd
  have hded : dedupKeys (self.ratios_for_attack.insertionSort (· ≤ ·))
      = self.ratios_for_attack.insertionSort (· ≤ ·) := dedupKeys_of_nodup hsnd
  set self' : AttackSelf :=
    { self with
      ratios_for_attack := self.ratios_for_attack.insertionSort (· ≤ ·) }
    with hself'
  set pred := fun r => prediction_on_specific_property O self'
    (O.feature_extraction self.target_model)
    (create_shadow_classifier_from_training_set O self
      (neg_property_num_elements_per_class self)) r with hpredf
  set preds := (dedupKeys (self.ratios_for_attack.insertionSort (· ≤ ·))).map
    (fun r => (r, pred r)) with hpreds
  have hpne : preds ≠ [] := by
    rw [hpreds, hded]
    intro hc
    exact hsne (List.map_eq_nil_iff.1 hc)
  have hrne : self'.ratios_for_attack ≠ [] := hsne
  obtain ⟨u, w, hu, hout⟩ := output_attack_ok_of_ne_nil self' preds hpne hrne
  have hcl : self'.classes = self.classes := rfl
  rw [hcl] at hout
  have hfmtnd : (preds.map (fun p => fmtKey self.classes p.1)).Nodup := by
    rw [hpreds, hded, List.map_map]
    have : ((self.ratios_for_attack.insertionSort (· ≤ ·)).map
        ((fun p : ℚ × ℚ => fmtKey self.classes p.1) ∘ (fun r => (r, pred r))))
        = (self.ratios_for_attack.insertionSort (· ≤ ·)).map
            (fmtKey self.classes) := by
      refine List.map_congr_left ?_
      intro r _
      rfl
    rw [this]
    exact ((hperm.map _).nodup_iff).2 hinj
  refine ⟨u, w, hu, ?_, ?_⟩
  · rw [hout, length_buildOutputDict self.classes preds hfmtnd, hpreds, hded,
      List.length_map, hperm.length_eq]
  · intro k
    rw [hout, keys_buildOutputDict]
    constructor
    · rintro ⟨p, hp, hf⟩
      rw [hpreds, hded] at hp
      rcases List.mem_map.1 hp with ⟨r, hr, rfl⟩
      exact ⟨r, hperm.mem_iff.1 hr, hf⟩
    · rintro ⟨r, hr, hf⟩
      refine ⟨(r, pred r), ?_, hf⟩
      rw [hpreds, hded]
      exact List.mem_map.2 ⟨r, hperm.mem_iff.2 hr, rfl⟩

theorem roundHalfEven_intCast (n : ℤ) : roundHalfEven (n : ℚ) = n := by
  rw [roundHalfEven, Int.floor_intCast]
  rw [if_pos (by norm_num)]

theorem pyRound5_of_int_mul (q : ℚ) (n : ℤ) (h : q * 100000 = (n : ℚ)) :
    pyRound5 q = (n : ℚ) / 100000 := by
  rw [pyRound5, h, roundHalfEven_intCast]

/-- Claim C5 witness: the amended statement at the distinct two-ratio sweep
`[0.3, 0.9]`: the report has exactly two entries. -/
theorem C5_one_entry_per_distinct_ratio_witness :
    ∃ u w, (attack trivialOracles selfC3).1 = .ok (u, w)
      ∧ u.output.length = selfC3.ratios_for_attack.length := by
  have e3 : pyRound5 ((3:ℚ)/10) = ((30000:ℤ) : ℚ) / 100000 :=
    pyRound5_of_int_mul _ _ (by norm_num)
  have e9 : pyRound5 ((9:ℚ)/10) = ((90000:ℤ) : ℚ) / 100000 :=
    pyRound5_of_int_mul _ _ (by norm_num)
  have hinj : (selfC3.ratios_for_attack.map (fmtKey selfC3.classes)).Nodup := by
    norm_num [selfC3, fmtKey, e3, e9, OutKey.mk.injEq]
  obtain ⟨u, w, h1, h2, h3⟩ := C5_one_entry_per_distinct_ratio trivialOracles
    selfC3 (by norm_num [selfC3]) hinj (by simp [selfC3])
  exact ⟨u, w, h1, h2⟩

end PrivacyEvaluator
